import Mathlib

/-!
# ESP32-S3 motherboard detection: output decoding, tensor copy and detection loop

A shallow embedding of `src/main/main.cpp`:

* `process_output` (lines 238-286): the scan over the output tensor's channels, the
  conversion of the winning score to a single-precision confidence, and the
  decision that is logged;
* the `memcpy` at the end of `preprocess_image` (line 228), and the quantization
  range `preprocess_image` passes to the image library (lines 219-225);
* one iteration of the `while (1)` loop of `motherboard_detection_task` (lines 311-345).

The image library (`dl::img`) and the model runtime (`dl::model`) are not part of the
sources: the normalized image and the output tensor are taken as given, and the
quantizer is modelled from the specification.

Signed bytes (`int8_t`) are integers in `[-128, 127]`; `int` arithmetic is integer
arithmetic wrapped to 32 bits; `float` values are finite binary32 numbers written as
`sig * 2 ^ exp`, and the one float operation of the source (a division) is rounded to
nearest, ties to even, on a 24-bit significand.
-/

namespace MotherboardDetection

/-! ## Tensors -/

/-- The four `int` dimensions `dims.n`, `dims.c`, `dims.h`, `dims.w` of a tensor. -/
structure Dims where
  n : Int
  c : Int
  h : Int
  w : Int
deriving DecidableEq, Repr

/-- A view of `dl::model::Tensor<int8_t>`: its dimensions and the signed bytes stored
at `data[0]`, `data[1]`, ... -/
structure Tensor where
  dims : Dims
  data : List Int
deriving DecidableEq, Repr

/-- Every cell of the buffer is a signed byte. -/
def Int8Cells (xs : List Int) : Prop := ∀ x ∈ xs, -128 ≤ x ∧ x ≤ 127

/-- The buffer holds `n * c * h * w` cells, each a signed byte. -/
def Tensor.WellFormed (t : Tensor) : Prop :=
  t.data.length = (t.dims.n * t.dims.c * t.dims.h * t.dims.w).toNat ∧ Int8Cells t.data

/-- The test of line 243: `dims.n == 1 && dims.h == 1 && dims.w == 1`. -/
def Dims.isClassification (d : Dims) : Bool :=
  d.n == 1 && d.h == 1 && d.w == 1

/-! ## Machine arithmetic -/

/-- Two's-complement wrap of an integer to a 32-bit `int`. -/
def toInt32 (x : Int) : Int := (x + 2 ^ 31) % 2 ^ 32 - 2 ^ 31

/-- A finite binary32 value, `sig * 2 ^ exp`. -/
structure F32 where
  sig : Int
  exp : Int
deriving DecidableEq, Repr

/-- The rational number a float stands for. -/
def F32.toRat (x : F32) : ℚ := (x.sig : ℚ) * (2 : ℚ) ^ x.exp

/-- Comparison `x < y` of two floats, on integers after aligning the exponents. -/
def F32.lt (x y : F32) : Bool :=
  let m := min x.exp y.exp
  decide (x.sig * 2 ^ (x.exp - m).toNat < y.sig * 2 ^ (y.exp - m).toNat)

/-- The quotient `n / d` of two naturals rounded to the nearest natural, ties to even. -/
def rneDiv (n d : Nat) : Nat :=
  let q := n / d
  let r := n % d
  if 2 * r < d then q
  else if d < 2 * r then q + 1
  else if q % 2 = 0 then q else q + 1

/-- Whether `b * 2 ^ k ≤ a` for an integer exponent `k`. -/
def scaledLe (b a : Nat) (k : Int) : Bool :=
  if 0 ≤ k then decide (b * 2 ^ k.toNat ≤ a) else decide (b ≤ a * 2 ^ (-k).toNat)

/-- The position of the leading bit of `n`, by halving at most `fuel` times. -/
def floorLog2Aux : Nat → Nat → Nat
  | 0, _ => 0
  | fuel + 1, n => if n < 2 then 0 else floorLog2Aux fuel (n / 2) + 1

/-- The position `⌊log₂ n⌋` of the leading bit of `n` (`0` for `n = 0`). -/
def floorLog2 (n : Nat) : Nat := floorLog2Aux n n

/-- The binary exponent `⌊log₂ (a / b)⌋` of a positive quotient. -/
def quotExponent (a b : Nat) : Int :=
  let k : Int := (floorLog2 a : Int) - (floorLog2 b : Int)
  if scaledLe b a k then k else k - 1

/-- The 24-bit significand of `a / b` at binary exponent `e`: `a / b / 2 ^ (e - 23)`,
rounded to nearest, ties to even. -/
def quotSignificand (a b : Nat) (e : Int) : Nat :=
  let sh : Int := 23 - e
  if 0 ≤ sh then rneDiv (a * 2 ^ sh.toNat) b else rneDiv a (b * 2 ^ (-sh).toNat)

/-- Single-precision division `(float)a / (float)b` of two integers that are exactly
representable (`|a|, b < 2 ^ 24`, `b > 0`) with a quotient in the normal range: the
exact quotient rounded once. -/
def f32div (a : Int) (b : Nat) : F32 :=
  if a = 0 then ⟨0, 0⟩
  else
    let e := quotExponent a.natAbs b
    ⟨a.sign * (quotSignificand a.natAbs b e : Int), e - 23⟩

/-- The constant `DETECTION_THRESHOLD`, the float literal `0.5f` (line 59). -/
def DETECTION_THRESHOLD : F32 := ⟨1, -1⟩

/-- The table of class names (line 64). -/
def class_names : List String := ["motherboard", "background"]

/-! ## `process_output` -/

/-- The two locals `max_score` and `max_class_id` of the scan. -/
structure ScanState where
  max_score : Int
  max_class_id : Int
deriving DecidableEq, Repr

/-- The body of the `for` loop (lines 251-255) at index `i`. A read beyond the buffer
is outside the model (it yields `0` here); the theorems assume `Tensor.WellFormed`
wherever a cell is read. -/
def scanStep (data : List Int) (st : ScanState) (i : Nat) : ScanState :=
  let score := data.getD i 0
  if score > st.max_score then ⟨score, (i : Int)⟩ else st

/-- The scan of lines 247-256: `max_score = -128`, `max_class_id = -1`, then the loop over
`i = 0, ..., num_classes - 1`. -/
def findMaxClass (data : List Int) (num_classes : Int) : ScanState :=
  (List.range num_classes.toNat).foldl (scanStep data) ⟨-128, -1⟩

/-- The confidence of line 259: `(float)(max_score + 128) / 255.0f`. -/
def confidenceOf (max_score : Int) : F32 :=
  f32div (toInt32 (max_score + 128)) 255

/-- What `process_output` logs. -/
inductive Outcome where
  /-- The log "Detected: ..." followed by "*** MOTHERBOARD DETECTED! ***". -/
  | detected (class_id : Int) (confidence : F32)
  /-- The log "Detected: ..." followed by "No motherboard detected or low confidence". -/
  | notDetected (class_id : Int) (confidence : F32)
  /-- The error log "Invalid class ID: %d". -/
  | invalidClassId (class_id : Int)
  /-- The log "Output tensor shape: (%d, %d, %d, %d)" and the note that the format
  needs specific processing. -/
  | unrecognizedShape (n c h w : Int)
deriving DecidableEq, Repr

/-- The body of `process_output` on the model's output tensor (lines 238-286). The
bound `sizeof(class_names)/sizeof(char*)` is the length of `class_names`; the source
compares `max_class_id` with it only after `max_class_id >= 0`, so the unsigned
comparison agrees with the integer one. -/
def process_output (output_tensor : Tensor) : Outcome :=
  if output_tensor.dims.isClassification then
    let num_classes := output_tensor.dims.c
    let st := findMaxClass output_tensor.data num_classes
    let confidence := confidenceOf st.max_score
    if 0 ≤ st.max_class_id && st.max_class_id < (class_names.length : Int) then
      if st.max_class_id == 0 && DETECTION_THRESHOLD.lt confidence then
        .detected st.max_class_id confidence
      else
        .notDetected st.max_class_id confidence
    else
      .invalidClassId st.max_class_id
  else
    .unrecognizedShape output_tensor.dims.n output_tensor.dims.c
      output_tensor.dims.h output_tensor.dims.w

/-- The positive detection was reported. -/
def Outcome.isPositive : Outcome → Bool
  | .detected _ _ => true
  | _ => false

/-- The negative/uncertain report was made. -/
def Outcome.isNegative : Outcome → Bool
  | .notDetected _ _ => true
  | _ => false

/-- The error log was written. -/
def Outcome.isError : Outcome → Bool
  | .invalidClassId _ => true
  | _ => false

/-- The else branch of line 278 was taken. -/
def Outcome.isUnrecognized : Outcome → Bool
  | .unrecognizedShape _ _ _ _ => true
  | _ => false

/-! ## The copy into the input tensor -/

/-- The memory that starts at `input_tensor.data`: the first `capacity` cells are the
tensor's buffer, the cells after them belong to whatever lies behind it. -/
structure TensorMemory where
  capacity : Nat
  cells : List Int
deriving DecidableEq, Repr

/-- The C library `memcpy(dst, src, n)` on the memory that starts at `dst`: the first
`n` cells are overwritten with the first `n` cells of `src`. -/
def memcpy (dst src : List Int) (n : Nat) : List Int :=
  src.take n ++ dst.drop n

/-- What `preprocess_image` (lines 198-235) does to the memory of the input tensor,
the copy of line 228: `memcpy(input_tensor.data, normalized_image->get_data(),
normalized_image->get_size() * sizeof(int8_t))`. The normalized image is what the
image library returned for the frame, `get_size()` its number of samples; the
function returns `void`. -/
def preprocess_image (normalized_image : List Int) (input_tensor : TensorMemory) :
    TensorMemory :=
  { input_tensor with
    cells := memcpy input_tensor.cells normalized_image (normalized_image.length * 1) }

/-- The constant `IMAGE_WIDTH` (line 60). -/
def IMAGE_WIDTH : Nat := 224

/-- The constant `IMAGE_HEIGHT` (line 61). -/
def IMAGE_HEIGHT : Nat := 224

/-! ## The quantization range of `preprocess_image` -/

/-- The four bounds of a quantization range. -/
structure QuantizationRange where
  input_min : ℚ
  input_max : ℚ
  output_min : ℚ
  output_max : ℚ

/-- The bounds `preprocess_image` passes to `dl::img::normalize` (lines 219-225):
output minimum `-128.0f`, output maximum `127.0f`, input minimum `0.0f`, input
maximum `255.0f`. -/
def preprocess_range : QuantizationRange :=
  { input_min := 0, input_max := 255, output_min := -128, output_max := 127 }

/-- The range invariant of the data model. -/
def QuantizationRange.Valid (r : QuantizationRange) : Prop :=
  r.input_min < r.input_max ∧ r.output_min < r.output_max

/-- Modelled from the spec: the affine map of a quantization range,
`output_min + (sample - input_min) * (output_max - output_min) / (input_max - input_min)`;
the quantizer `dl::img::normalize` belongs to the image library and is not in the
sources. -/
def affineMap (r : QuantizationRange) (sample : ℚ) : ℚ :=
  r.output_min + (sample - r.input_min) * (r.output_max - r.output_min)
    / (r.input_max - r.input_min)

/-- Modelled from the spec: rounding to the nearest integer, halves away from zero
(the rounding policy of the Quantizer contract, whose code is not in the sources). -/
def roundHalfAway (q : ℚ) : Int :=
  if 0 ≤ q then ⌊q + 1 / 2⌋ else ⌈q - 1 / 2⌉

/-- Modelled from the spec: saturation to the signed fixed-point domain `[-128, 127]`
(the clamp of the Quantizer contract, whose code is not in the sources). -/
def clampInt8 (x : Int) : Int := max (-128) (min 127 x)

/-- Modelled from the spec: the Quantizer on one byte sample, the affine map, then
rounding, then the clamp (`dl::img::normalize` is not in the sources). -/
def quantize (r : QuantizationRange) (sample : Int) : Int :=
  clampInt8 (roundHalfAway (affineMap r (sample : ℚ)))

/-! ## The detection loop -/

/-- What one iteration of the loop meets: the frame buffer `esp_camera_fb_get`
returns (`none` for `NULL`), whether `model->run()` succeeded, and the output tensor
as it stands after the run. -/
structure CycleEnv where
  fb : Option Nat
  run_ok : Bool
  output : Tensor
deriving DecidableEq, Repr

/-- The calls one iteration makes, in order. -/
inductive Event where
  /-- The call `esp_camera_fb_get()` and what it returned. -/
  | fb_get (fb : Option Nat)
  /-- The call `preprocess_image(fb, input_tensor)`. -/
  | preprocess (fb : Nat)
  /-- The call `model->run()` and whether the run succeeded; the loop does not look
  at it. -/
  | run (ok : Bool)
  /-- The call `process_output(model)` and what it logged. -/
  | decode (o : Outcome)
  /-- The call `esp_camera_fb_return(fb)`. -/
  | fb_return (fb : Nat)
  /-- The call `vTaskDelay(pdMS_TO_TICKS(ms))`. -/
  | delay (ms : Nat)
deriving DecidableEq, Repr

/-- One iteration of the `while (1)` loop (lines 312-344). -/
def cycle (env : CycleEnv) : List Event :=
  match env.fb with
  | none => [.fb_get none, .delay 1000]
  | some fb =>
    [.fb_get (some fb), .preprocess fb, .run env.run_ok,
      .decode (process_output env.output), .fb_return fb, .delay 3000]

/-- The first iterations of the loop, one per entry of `envs`; the loop has no exit. -/
def detection_loop : List CycleEnv → List Event
  | [] => []
  | env :: rest => cycle env ++ detection_loop rest

/-- The event is a frame return. -/
def Event.isReturn : Event → Bool
  | .fb_return _ => true
  | _ => false

/-- The event is a capture attempt. -/
def Event.isCapture : Event → Bool
  | .fb_get _ => true
  | _ => false

/-- The event is one of the stages after the capture: preprocessing, the model run or
the output decoding. -/
def Event.isStage : Event → Bool
  | .preprocess _ => true
  | .run _ => true
  | .decode _ => true
  | _ => false

/-! ## Auxiliary definitions for the proofs -/

/-- The facts about `(float)k / 255.0f` that the theorems use, as one decidable test:
the exponent is not positive, the significand is not negative and at most
`2 ^ (-exp)` (the value is at most one), the value is within half a unit in the last
place and within `2 ^ (-25)` of `k / 255`, the significand of a nonzero value has
24 bits, and the value exceeds `DETECTION_THRESHOLD` exactly from `k = 128` on. -/
def quotientCheck (k : Nat) : Bool :=
  let x := f32div (k : Int) 255
  let n := (-x.exp).toNat
  decide (x.exp ≤ 0) && decide (0 ≤ x.sig) && decide (x.sig ≤ 2 ^ n) &&
  decide (2 * |x.sig * 255 - (k : Int) * 2 ^ n| ≤ 255) &&
  decide (2 ^ 25 * |x.sig * 255 - (k : Int) * 2 ^ n| ≤ 255 * 2 ^ n) &&
  decide (0 < k → 2 ^ 23 ≤ x.sig ∧ x.sig ≤ 2 ^ 24) &&
  (DETECTION_THRESHOLD.lt x == decide (128 ≤ k))

/-- The state of the scan after the indices below `k`. -/
def scanUpTo (data : List Int) (k : Nat) : ScanState :=
  (List.range k).foldl (scanStep data) ⟨-128, -1⟩

/-- What the scan holds after the indices below `k`: either nothing was selected and
every score seen is at most `-128`, or the selected index is the first one that
carries the largest score seen, and that score is above `-128`. -/
def ScanInv (data : List Int) (k : Nat) (st : ScanState) : Prop :=
  (st.max_class_id = -1 ∧ st.max_score = -128 ∧ ∀ i, i < k → data.getD i 0 ≤ -128) ∨
  (∃ j : Nat, st.max_class_id = (j : Int) ∧ j < k ∧ st.max_score = data.getD j 0 ∧
    -128 < data.getD j 0 ∧ (∀ i, i < k → data.getD i 0 ≤ data.getD j 0) ∧
    (∀ i, i < j → data.getD i 0 < data.getD j 0))

/-! ## Machine arithmetic: lemmas -/

theorem toInt32_of_small (x : Int) (h1 : -2147483648 ≤ x) (h2 : x < 2147483648) :
    toInt32 x = x := by
  unfold toInt32
  norm_num
  omega

theorem F32.toRat_of_nonpos_exp (x : F32) (h : x.exp ≤ 0) :
    x.toRat = (x.sig : ℚ) / (2 : ℚ) ^ (-x.exp).toNat := by
  unfold F32.toRat
  have he : x.exp = -((-x.exp).toNat : Int) := by omega
  rw [he, zpow_neg, zpow_natCast, div_eq_mul_inv]
  congr 3
  omega

theorem F32.toRat_shift (x : F32) (m : Int) (h : m ≤ x.exp) :
    x.toRat = ((x.sig * 2 ^ (x.exp - m).toNat : Int) : ℚ) * (2 : ℚ) ^ m := by
  unfold F32.toRat
  have he : x.exp = ((x.exp - m).toNat : Int) + m := by omega
  conv_lhs => rw [he]
  rw [zpow_add₀ (by norm_num : (2 : ℚ) ≠ 0), zpow_natCast]
  push_cast
  ring

/-- The integer comparison of two floats is the comparison of their values. -/
theorem F32.lt_iff (x y : F32) : x.lt y = true ↔ x.toRat < y.toRat := by
  have hx := F32.toRat_shift x (min x.exp y.exp) (min_le_left _ _)
  have hy := F32.toRat_shift y (min x.exp y.exp) (min_le_right _ _)
  have hpos : (0 : ℚ) < (2 : ℚ) ^ (min x.exp y.exp) := zpow_pos (by norm_num) _
  rw [hx, hy, mul_lt_mul_right hpos, Int.cast_lt]
  simp [F32.lt]

theorem threshold_toRat : DETECTION_THRESHOLD.toRat = 1 / 2 := by
  simp only [DETECTION_THRESHOLD, F32.toRat]
  norm_num

set_option maxRecDepth 100000 in
theorem quotientCheck_all : ∀ k : Fin 256, quotientCheck k.val = true := by
  decide

/-- For a signed byte `s` the sum `s + 128` is formed in `int` and does not wrap. -/
theorem confidenceOf_eq (s : Int) (hlo : -128 ≤ s) (hhi : s ≤ 127) :
    confidenceOf s = f32div (s + 128) 255 := by
  unfold confidenceOf
  rw [toInt32_of_small _ (by omega) (by omega)]

/-- The checked facts at the score `s`, with `k = s + 128`. -/
theorem quotient_facts (s : Int) (hlo : -128 ≤ s) (hhi : s ≤ 127) :
    let x := confidenceOf s
    let n := (-x.exp).toNat
    x.exp ≤ 0 ∧ 0 ≤ x.sig ∧ x.sig ≤ 2 ^ n ∧
    2 * |x.sig * 255 - (s + 128) * 2 ^ n| ≤ 255 ∧
    2 ^ 25 * |x.sig * 255 - (s + 128) * 2 ^ n| ≤ 255 * 2 ^ n ∧
    (s ≠ -128 → 2 ^ 23 ≤ x.sig ∧ x.sig ≤ 2 ^ 24) ∧
    (DETECTION_THRESHOLD.lt x = true ↔ 0 ≤ s) := by
  have hk : (s + 128).toNat < 256 := by omega
  have hc := quotientCheck_all ⟨(s + 128).toNat, hk⟩
  have hs : (((s + 128).toNat : Nat) : Int) = s + 128 := by omega
  rw [confidenceOf_eq s hlo hhi]
  simp only [quotientCheck, Bool.and_eq_true, decide_eq_true_eq, beq_iff_eq, hs] at hc
  obtain ⟨⟨⟨⟨⟨⟨h1, h2⟩, h3⟩, h4⟩, h5⟩, h6⟩, h7⟩ := hc
  refine ⟨h1, h2, h3, h4, h5, ?_, ?_⟩
  · intro hne
    exact h6 (by omega)
  · rw [h7]
    simp only [decide_eq_true_eq]
    omega

theorem quotient_error_half_ulp (D P : ℚ) (hP : 0 < P) (h : 2 * |D| ≤ 255) :
    |D / (255 * P)| ≤ 1 / P / 2 := by
  rw [abs_div, abs_of_pos (by positivity : (0 : ℚ) < 255 * P), div_div,
    div_le_div_iff₀ (by positivity) (by positivity)]
  have := mul_le_mul_of_nonneg_right h hP.le
  linarith

theorem quotient_error_abs (D P : ℚ) (hP : 0 < P) (h : 2 ^ 25 * |D| ≤ 255 * P) :
    |D / (255 * P)| ≤ 1 / 2 ^ 25 := by
  rw [abs_div, abs_of_pos (by positivity : (0 : ℚ) < 255 * P),
    div_le_div_iff₀ (by positivity) (by positivity)]
  linarith

/-! ## The scan: lemmas -/

theorem scanUpTo_succ (data : List Int) (k : Nat) :
    scanUpTo data (k + 1) = scanStep data (scanUpTo data k) k := by
  simp [scanUpTo, List.range_succ, List.foldl_append]

theorem findMaxClass_eq_scanUpTo (data : List Int) (num_classes : Int) :
    findMaxClass data num_classes = scanUpTo data num_classes.toNat := rfl

theorem scanUpTo_inv (data : List Int) (k : Nat) : ScanInv data k (scanUpTo data k) := by
  induction k with
  | zero =>
    left
    refine ⟨rfl, rfl, ?_⟩
    intro i hi
    omega
  | succ k ih =>
    rw [scanUpTo_succ]
    unfold scanStep
    rcases ih with ⟨hid, hms, hall⟩ | ⟨j, hid, hjk, hms, hpos, hall, hfirst⟩
    · by_cases hgt : data.getD k 0 > (scanUpTo data k).max_score
      · rw [if_pos hgt]
        right
        refine ⟨k, rfl, by omega, rfl, by omega, ?_, ?_⟩
        · intro i hi
          rcases Nat.lt_succ_iff_lt_or_eq.mp hi with h | h
          · have := hall i h
            omega
          · subst h
            exact le_refl _
        · intro i hi
          have := hall i hi
          omega
      · rw [if_neg hgt]
        left
        refine ⟨hid, hms, ?_⟩
        intro i hi
        rcases Nat.lt_succ_iff_lt_or_eq.mp hi with h | h
        · exact hall i h
        · subst h
          omega
    · by_cases hgt : data.getD k 0 > (scanUpTo data k).max_score
      · rw [if_pos hgt]
        right
        refine ⟨k, rfl, by omega, rfl, by omega, ?_, ?_⟩
        · intro i hi
          rcases Nat.lt_succ_iff_lt_or_eq.mp hi with h | h
          · have := hall i h
            omega
          · subst h
            exact le_refl _
        · intro i hi
          have := hall i hi
          omega
      · rw [if_neg hgt]
        right
        refine ⟨j, hid, by omega, hms, hpos, ?_, hfirst⟩
        intro i hi
        rcases Nat.lt_succ_iff_lt_or_eq.mp hi with h | h
        · exact hall i h
        · subst h
          omega

/-- The scan selects index `0` exactly when there is a channel, its score is above
`-128`, and no channel scores higher. -/
theorem scan_selects_zero_iff (data : List Int) (k : Nat) :
    (scanUpTo data k).max_class_id = 0 ↔
      0 < k ∧ -128 < data.getD 0 0 ∧ ∀ i, i < k → data.getD i 0 ≤ data.getD 0 0 := by
  constructor
  · intro h0
    rcases scanUpTo_inv data k with ⟨hid, -, -⟩ | ⟨j, hid, hjk, -, hpos, hall, -⟩
    · omega
    · have hj : j = 0 := by omega
      subst hj
      exact ⟨hjk, hpos, hall⟩
  · rintro ⟨hk, hpos, hall⟩
    rcases scanUpTo_inv data k with ⟨-, -, hle⟩ | ⟨j, hid, hjk, -, -, hall2, hfirst⟩
    · have := hle 0 hk
      omega
    · rw [hid]
      by_contra hne
      have hj : 0 < j := by omega
      have h1 := hfirst 0 hj
      have h2 := hall j hjk
      omega

/-- When the scan selects index `0`, the winning score is the score of channel 0. -/
theorem scan_score_of_zero (data : List Int) (k : Nat)
    (h0 : (scanUpTo data k).max_class_id = 0) :
    (scanUpTo data k).max_score = data.getD 0 0 := by
  rcases scanUpTo_inv data k with ⟨hid, -, -⟩ | ⟨j, hid, -, hms, -, -, -⟩
  · omega
  · have hj : j = 0 := by omega
    subst hj
    exact hms

/-! ## `process_output`: lemmas -/

theorem isClassification_iff (d : Dims) :
    d.isClassification = true ↔ d.n = 1 ∧ d.h = 1 ∧ d.w = 1 := by
  simp [Dims.isClassification, and_assoc]

/-- The outcome of the classification branch, by cases on the selected index. -/
theorem process_output_classification (t : Tensor) (hshape : t.dims.isClassification = true) :
    process_output t =
      (if 0 ≤ (findMaxClass t.data t.dims.c).max_class_id ∧
          (findMaxClass t.data t.dims.c).max_class_id < 2 then
        (if (findMaxClass t.data t.dims.c).max_class_id = 0 ∧
            DETECTION_THRESHOLD.lt (confidenceOf (findMaxClass t.data t.dims.c).max_score) = true
          then Outcome.detected (findMaxClass t.data t.dims.c).max_class_id
            (confidenceOf (findMaxClass t.data t.dims.c).max_score)
          else Outcome.notDetected (findMaxClass t.data t.dims.c).max_class_id
            (confidenceOf (findMaxClass t.data t.dims.c).max_score))
      else Outcome.invalidClassId (findMaxClass t.data t.dims.c).max_class_id) := by
  simp [process_output, hshape, class_names]

theorem process_output_positive_iff (t : Tensor) :
    (process_output t).isPositive = true ↔
      t.dims.isClassification = true ∧
      (findMaxClass t.data t.dims.c).max_class_id = 0 ∧
      DETECTION_THRESHOLD.lt (confidenceOf (findMaxClass t.data t.dims.c).max_score) = true := by
  by_cases hshape : t.dims.isClassification = true
  · rw [process_output_classification t hshape]
    by_cases h0 : (findMaxClass t.data t.dims.c).max_class_id = 0
    · by_cases hlt : DETECTION_THRESHOLD.lt
          (confidenceOf (findMaxClass t.data t.dims.c).max_score) = true
      · simp [h0, hlt, hshape, Outcome.isPositive]
      · simp [h0, hlt, hshape, Outcome.isPositive]
    · by_cases hr : 0 ≤ (findMaxClass t.data t.dims.c).max_class_id ∧
          (findMaxClass t.data t.dims.c).max_class_id < 2
      · simp [h0, hr, Outcome.isPositive]
      · simp [h0, hr, Outcome.isPositive]
  · simp [process_output, hshape, Outcome.isPositive]

theorem getD_mem_of_lt (xs : List Int) (i : Nat) (h : i < xs.length) : xs.getD i 0 ∈ xs := by
  rw [List.getD_eq_getElem _ _ h]
  exact List.getElem_mem h

/-- The length of a well-formed classification tensor's buffer is its channel count. -/
theorem wellFormed_length (t : Tensor) (hwf : t.WellFormed)
    (hshape : t.dims.isClassification = true) : t.data.length = t.dims.c.toNat := by
  obtain ⟨hn, hh, hw⟩ := (isClassification_iff t.dims).mp hshape
  have h := hwf.1
  rw [hn, hh, hw] at h
  simpa using h

/-- Whenever some score is above `-128`, the scan selects the lowest index that
carries the maximum score. -/
theorem findMaxClass_lowest_argmax (data : List Int) (k : Nat)
    (hsome : ∃ i, i < k ∧ -128 < data.getD i 0) :
    ∃ j : Nat, (scanUpTo data k).max_class_id = (j : Int) ∧ j < k ∧
      (scanUpTo data k).max_score = data.getD j 0 ∧
      (∀ i, i < k → data.getD i 0 ≤ data.getD j 0) ∧
      (∀ i, i < j → data.getD i 0 < data.getD j 0) := by
  rcases scanUpTo_inv data k with ⟨-, -, hle⟩ | ⟨j, hid, hjk, hms, -, hall, hfirst⟩
  · obtain ⟨i, hi, hgt⟩ := hsome
    have := hle i hi
    omega
  · exact ⟨j, hid, hjk, hms, hall, hfirst⟩

/-! ## The copy into the input tensor: lemmas -/

theorem memcpy_getD (dst src : List Int) (n i : Nat) (hi : i < n) (hn : n ≤ src.length) :
    (memcpy dst src n).getD i 0 = src.getD i 0 := by
  unfold memcpy
  have h1 : i < (src.take n).length := by
    rw [List.length_take]
    omega
  rw [List.getD_append _ _ _ _ h1, List.getD_eq_getElem _ _ h1,
    List.getD_eq_getElem _ _ (by omega), List.getElem_take]

/-- Every sample of the normalized image is written, at its own offset from
`input_tensor.data`, whatever the capacity of the tensor. -/
theorem copy_writes_every_sample (normalized_image : List Int) (input_tensor : TensorMemory)
    (i : Nat) (hi : i < normalized_image.length) :
    (preprocess_image normalized_image input_tensor).cells.getD i 0
      = normalized_image.getD i 0 := by
  unfold preprocess_image
  exact memcpy_getD _ _ _ _ (by omega) (by omega)

theorem getD_replicate_of_lt (n i : Nat) (v : Int) (h : i < n) :
    (List.replicate n v).getD i 0 = v := by
  rw [List.getD_eq_getElem _ _ (by rw [List.length_replicate]; exact h),
    List.getElem_replicate]

/-! ## The quantization range: lemmas -/

theorem roundHalfAway_intCast (z : Int) : roundHalfAway (z : ℚ) = z := by
  unfold roundHalfAway
  split
  · rw [Int.floor_eq_iff]
    constructor
    · linarith
    · linarith
  · rw [Int.ceil_eq_iff]
    constructor
    · linarith
    · linarith

/-- On the range of `preprocess_image` the affine map is the shift by `-128`. -/
theorem affineMap_preprocess_range (s : Int) :
    affineMap preprocess_range (s : ℚ) = ((s - 128 : Int) : ℚ) := by
  simp only [affineMap, preprocess_range]
  push_cast
  field_simp
  ring

theorem quantize_preprocess_range (s : Int) (h0 : 0 ≤ s) (h255 : s ≤ 255) :
    quantize preprocess_range s = s - 128 := by
  unfold quantize
  rw [affineMap_preprocess_range, roundHalfAway_intCast]
  unfold clampInt8
  omega

/-! ## The detection loop: lemmas -/

theorem cycle_none (env : CycleEnv) (h : env.fb = none) :
    cycle env = [.fb_get none, .delay 1000] := by
  simp [cycle, h]

theorem cycle_some (env : CycleEnv) (f : Nat) (h : env.fb = some f) :
    cycle env = [.fb_get (some f), .preprocess f, .run env.run_ok,
      .decode (process_output env.output), .fb_return f, .delay 3000] := by
  simp [cycle, h]

theorem cycle_count_returns (env : CycleEnv) :
    (cycle env).countP Event.isReturn = if env.fb.isSome then 1 else 0 := by
  cases h : env.fb with
  | none => simp [cycle_none env h, Event.isReturn]
  | some f => simp [cycle_some env f h, Event.isReturn]

theorem cycle_count_captures (env : CycleEnv) :
    (cycle env).countP Event.isCapture = 1 := by
  cases h : env.fb with
  | none => simp [cycle_none env h, Event.isCapture]
  | some f => simp [cycle_some env f h, Event.isCapture]

theorem loop_count_returns (envs : List CycleEnv) :
    (detection_loop envs).countP Event.isReturn
      = (envs.filter (fun env => env.fb.isSome)).length := by
  induction envs with
  | nil => rfl
  | cons env rest ih =>
    rw [detection_loop, List.countP_append, ih, cycle_count_returns, List.filter_cons]
    cases h : env.fb.isSome
    · simp
    · simp
      omega

theorem loop_count_captures (envs : List CycleEnv) :
    (detection_loop envs).countP Event.isCapture = envs.length := by
  induction envs with
  | nil => rfl
  | cons env rest ih =>
    rw [detection_loop, List.countP_append, ih, cycle_count_captures, List.length_cons]
    omega

/-- Where the frame return sits in an iteration: the capture of that frame,
preprocessing, the model run and the decoding all come before it, and only the delay
comes after it. -/
theorem cycle_return_position (env : CycleEnv) (pre post : List Event) (f : Nat)
    (h : cycle env = pre ++ Event.fb_return f :: post) :
    env.fb = some f ∧
    pre = [.fb_get (some f), .preprocess f, .run env.run_ok,
      .decode (process_output env.output)] ∧
    post = [.delay 3000] := by
  cases hfb : env.fb with
  | none =>
    rw [cycle_none env hfb] at h
    rcases pre with _ | ⟨a, _ | ⟨b, _ | ⟨c, pre⟩⟩⟩ <;> simp at h
  | some g =>
    rw [cycle_some env g hfb] at h
    rcases pre with _ | ⟨a, _ | ⟨b, _ | ⟨c, _ | ⟨d, _ | ⟨e, _ | ⟨e5, _ | ⟨e6, pre⟩⟩⟩⟩⟩⟩⟩ <;>
      simp at h
    obtain ⟨rfl, rfl, rfl, rfl, rfl, rfl⟩ := h
    simp

/-! ## The claims -/

/-- C1: on the two-channel output `[-128, -128]`, a non-empty vector of signed bytes,
the scan of `process_output` selects no class: `max_class_id` keeps its initial value
`-1` although index 0 is the lowest index that carries the maximum score, and the
error "Invalid class ID: -1" is logged; the same happens on the one-channel output
`[-128]`. On `[10, 90, -128, -128]` the scan selects index 1. -/
theorem C1_scan_misses_all_minimum :
    Tensor.WellFormed ⟨⟨1, 2, 1, 1⟩, [-128, -128]⟩ ∧
    findMaxClass [-128, -128] 2 = ⟨-128, -1⟩ ∧
    process_output ⟨⟨1, 2, 1, 1⟩, [-128, -128]⟩ = .invalidClassId (-1) ∧
    process_output ⟨⟨1, 1, 1, 1⟩, [-128]⟩ = .invalidClassId (-1) ∧
    (findMaxClass [10, 90, -128, -128] 4).max_class_id = 1 :=
  ⟨⟨by decide, by unfold Int8Cells; decide⟩, by decide, by decide, by decide, by decide⟩

/-- C2: for every signed byte `s` the sum `s + 128` is formed without wraparound and
the confidence is the single-precision quotient of it by 255: a float with a 24-bit
significand within half a unit in the last place, and within `2 ^ (-25)`, of
`(s + 128) / 255`; it lies in `[0, 1]`, and it is exactly 0 at `s = -128` and exactly
1 at `s = 127`. -/
theorem C2_confidence_affine (s : Int) (hlo : -128 ≤ s) (hhi : s ≤ 127) :
    toInt32 (s + 128) = s + 128
    ∧ confidenceOf s = f32div (s + 128) 255
    ∧ |(confidenceOf s).toRat - ((s : ℚ) + 128) / 255| ≤ (2 : ℚ) ^ (confidenceOf s).exp / 2
    ∧ |(confidenceOf s).toRat - ((s : ℚ) + 128) / 255| ≤ 1 / 2 ^ 25
    ∧ (s ≠ -128 → 2 ^ 23 ≤ (confidenceOf s).sig ∧ (confidenceOf s).sig ≤ 2 ^ 24)
    ∧ 0 ≤ (confidenceOf s).toRat ∧ (confidenceOf s).toRat ≤ 1
    ∧ (confidenceOf (-128)).toRat = 0 ∧ (confidenceOf 127).toRat = 1 := by
  obtain ⟨h1, h2, h3, h4, h5, h6, -⟩ := quotient_facts s hlo hhi
  have hrat := F32.toRat_of_nonpos_exp (confidenceOf s) h1
  have hulp : (2 : ℚ) ^ (confidenceOf s).exp = 1 / (2 : ℚ) ^ (-(confidenceOf s).exp).toNat := by
    have he : (confidenceOf s).exp = -((-(confidenceOf s).exp).toNat : Int) := by omega
    conv_lhs => rw [he]
    rw [zpow_neg, zpow_natCast, one_div]
  generalize (confidenceOf s).exp = e at *
  generalize (-e).toNat = n at *
  have hpow : (0 : ℚ) < (2 : ℚ) ^ n := by positivity
  have hdiff : (confidenceOf s).toRat - ((s : ℚ) + 128) / 255
      = (((confidenceOf s).sig * 255 - (s + 128) * 2 ^ n : Int) : ℚ) / (255 * (2 : ℚ) ^ n) := by
    rw [hrat]
    push_cast
    field_simp
    ring
  have h4q : (2 : ℚ) * |(((confidenceOf s).sig * 255 - (s + 128) * 2 ^ n : Int) : ℚ)| ≤ 255 := by
    rw [← Int.cast_abs]
    exact_mod_cast h4
  have h5q : (2 : ℚ) ^ 25 * |(((confidenceOf s).sig * 255 - (s + 128) * 2 ^ n : Int) : ℚ)|
      ≤ 255 * (2 : ℚ) ^ n := by
    rw [← Int.cast_abs]
    exact_mod_cast h5
  refine ⟨toInt32_of_small _ (by omega) (by omega), confidenceOf_eq s hlo hhi,
    ?_, ?_, h6, ?_, ?_, ?_, ?_⟩
  · rw [hdiff, hulp]
    exact quotient_error_half_ulp _ _ hpow h4q
  · rw [hdiff]
    exact quotient_error_abs _ _ hpow h5q
  · rw [hrat]
    have : (0 : ℚ) ≤ ((confidenceOf s).sig : ℚ) := by exact_mod_cast h2
    positivity
  · rw [hrat, div_le_one hpow]
    exact_mod_cast h3
  · have : confidenceOf (-128) = ⟨0, 0⟩ := by decide
    rw [this]
    simp [F32.toRat]
  · have : confidenceOf 127 = ⟨8388608, -23⟩ := by decide
    rw [this]
    simp only [F32.toRat]
    norm_num

theorem C2_confidence_affine_witness :
    (-128 : Int) ≤ 0 ∧ (0 : Int) ≤ 127 ∧
    |(confidenceOf 0).toRat - (((0 : Int) : ℚ) + 128) / 255| ≤ 1 / 2 ^ 25 ∧
    0 ≤ (confidenceOf 0).toRat ∧ (confidenceOf 0).toRat ≤ 1 :=
  have h := C2_confidence_affine 0 (by decide) (by decide)
  ⟨by decide, by decide, h.2.2.2.1, h.2.2.2.2.2.1, h.2.2.2.2.2.2.1⟩

/-- C3: for a classification-shaped output, the positive detection is reported exactly
when the selected class index is `0` and the confidence is strictly above
`DETECTION_THRESHOLD`, which is one half; the report then carries class `0` and that
confidence. -/
theorem C3_positive_iff_index_and_threshold (t : Tensor)
    (hshape : t.dims.isClassification = true) :
    DETECTION_THRESHOLD.toRat = 1 / 2 ∧
    ((process_output t).isPositive = true ↔
      (findMaxClass t.data t.dims.c).max_class_id = 0 ∧
      DETECTION_THRESHOLD.toRat <
        (confidenceOf (findMaxClass t.data t.dims.c).max_score).toRat) ∧
    ((process_output t).isPositive = true →
      process_output t =
        .detected 0 (confidenceOf (findMaxClass t.data t.dims.c).max_score)) := by
  refine ⟨threshold_toRat, ?_, ?_⟩
  · rw [process_output_positive_iff, ← F32.lt_iff]
    simp [hshape]
  · intro hpos
    obtain ⟨-, h0, hlt⟩ := (process_output_positive_iff t).mp hpos
    rw [process_output_classification t hshape]
    simp [h0, hlt]

theorem C3_positive_iff_index_and_threshold_witness :
    (⟨⟨1, 2, 1, 1⟩, [40, 7]⟩ : Tensor).dims.isClassification = true ∧
    process_output ⟨⟨1, 2, 1, 1⟩, [40, 7]⟩ = .detected 0 (confidenceOf 40) :=
  ⟨by decide,
    (C3_positive_iff_index_and_threshold ⟨⟨1, 2, 1, 1⟩, [40, 7]⟩ (by decide)).2.2 (by decide)⟩

/-- C4 as stated fails: the three-channel output `[0, 0, 5]` has the classification
shape and signed-byte scores, and its outcome is the error "Invalid class ID: 2",
neither the positive nor the negative report. -/
theorem C4_counterexample :
    (⟨⟨1, 3, 1, 1⟩, [0, 0, 5]⟩ : Tensor).dims.isClassification = true ∧
    Tensor.WellFormed ⟨⟨1, 3, 1, 1⟩, [0, 0, 5]⟩ ∧
    process_output ⟨⟨1, 3, 1, 1⟩, [0, 0, 5]⟩ = .invalidClassId 2 ∧
    (process_output ⟨⟨1, 3, 1, 1⟩, [0, 0, 5]⟩).isError = true ∧
    (process_output ⟨⟨1, 3, 1, 1⟩, [0, 0, 5]⟩).isPositive = false ∧
    (process_output ⟨⟨1, 3, 1, 1⟩, [0, 0, 5]⟩).isNegative = false :=
  ⟨by decide, ⟨by decide, by unfold Int8Cells; decide⟩, by decide, by decide, by decide,
    by decide⟩

/-- C4, amended: for a classification-shaped output the outcome is the positive or the
negative report, and not the error, exactly when the selected class index is 0 or 1,
an entry of `class_names`; for any other selected index the outcome is the error
"Invalid class ID" carrying that index. -/
theorem C4_report_iff_index_in_table (t : Tensor) (hshape : t.dims.isClassification = true) :
    (((process_output t).isPositive = true ∨ (process_output t).isNegative = true) ↔
      (0 ≤ (findMaxClass t.data t.dims.c).max_class_id ∧
        (findMaxClass t.data t.dims.c).max_class_id < 2)) ∧
    ((process_output t).isError = true ↔
      ¬ (0 ≤ (findMaxClass t.data t.dims.c).max_class_id ∧
        (findMaxClass t.data t.dims.c).max_class_id < 2)) ∧
    ((process_output t).isError = true →
      process_output t = .invalidClassId (findMaxClass t.data t.dims.c).max_class_id) := by
  rw [process_output_classification t hshape]
  by_cases hr : 0 ≤ (findMaxClass t.data t.dims.c).max_class_id ∧
      (findMaxClass t.data t.dims.c).max_class_id < 2
  · by_cases hd : (findMaxClass t.data t.dims.c).max_class_id = 0 ∧
        DETECTION_THRESHOLD.lt (confidenceOf (findMaxClass t.data t.dims.c).max_score) = true
    · simp [hr, hd, Outcome.isPositive, Outcome.isNegative, Outcome.isError]
    · simp [hr, hd, Outcome.isPositive, Outcome.isNegative, Outcome.isError]
  · simp [hr, Outcome.isPositive, Outcome.isNegative, Outcome.isError]

theorem C4_report_iff_index_in_table_witness :
    (⟨⟨1, 2, 1, 1⟩, [3, 7]⟩ : Tensor).dims.isClassification = true ∧
    ((process_output ⟨⟨1, 2, 1, 1⟩, [3, 7]⟩).isPositive = true ∨
      (process_output ⟨⟨1, 2, 1, 1⟩, [3, 7]⟩).isNegative = true) :=
  ⟨by decide,
    (C4_report_iff_index_in_table ⟨⟨1, 2, 1, 1⟩, [3, 7]⟩ (by decide)).1.mpr (by decide)⟩

/-- C5: the outcome is the unrecognized-shape report exactly when the dimensions are
not `n = 1`, `h = 1`, `w = 1`; that report carries the four raw dimensions and is
none of the positive, negative or error outcomes; and every tensor has exactly one
outcome. -/
theorem C5_unrecognized_iff_shape (t : Tensor) :
    ((process_output t).isUnrecognized = true ↔
      ¬ (t.dims.n = 1 ∧ t.dims.h = 1 ∧ t.dims.w = 1)) ∧
    (process_output t = .unrecognizedShape t.dims.n t.dims.c t.dims.h t.dims.w ↔
      ¬ (t.dims.n = 1 ∧ t.dims.h = 1 ∧ t.dims.w = 1)) ∧
    ((process_output t).isUnrecognized = true →
      (process_output t).isPositive = false ∧ (process_output t).isNegative = false ∧
      (process_output t).isError = false) ∧
    (∃! o : Outcome, process_output t = o) := by
  have hcls := isClassification_iff t.dims
  by_cases hshape : t.dims.isClassification = true
  · have hyes := hcls.mp hshape
    rw [process_output_classification t hshape]
    by_cases hr : 0 ≤ (findMaxClass t.data t.dims.c).max_class_id ∧
        (findMaxClass t.data t.dims.c).max_class_id < 2
    · by_cases hd : (findMaxClass t.data t.dims.c).max_class_id = 0 ∧
          DETECTION_THRESHOLD.lt (confidenceOf (findMaxClass t.data t.dims.c).max_score) = true
      · simp [hr, hd, hyes, Outcome.isUnrecognized]
      · simp [hr, hd, hyes, Outcome.isUnrecognized]
    · simp [hr, hyes, Outcome.isUnrecognized]
  · have hno : ¬ (t.dims.n = 1 ∧ t.dims.h = 1 ∧ t.dims.w = 1) := fun h => hshape (hcls.mpr h)
    have hout : process_output t =
        .unrecognizedShape t.dims.n t.dims.c t.dims.h t.dims.w := by
      simp [process_output, hshape]
    rw [hout]
    simp [hno, Outcome.isUnrecognized, Outcome.isPositive, Outcome.isNegative, Outcome.isError]

theorem C5_unrecognized_iff_shape_witness :
    (process_output ⟨⟨2, 2, 1, 1⟩, [0, 0]⟩).isUnrecognized = true ∧
    (process_output ⟨⟨2, 2, 1, 1⟩, [0, 0]⟩).isPositive = false ∧
    (process_output ⟨⟨2, 2, 1, 1⟩, [0, 0]⟩).isNegative = false ∧
    (process_output ⟨⟨2, 2, 1, 1⟩, [0, 0]⟩).isError = false :=
  ⟨by decide, (C5_unrecognized_iff_shape ⟨⟨2, 2, 1, 1⟩, [0, 0]⟩).2.2.1 (by decide)⟩

/-- C6: with a model whose input tensor is `1 x 3 x 96 x 96` (capacity 27648) the
normalized `224 x 224 x 3` image has 150528 samples, more than the capacity; the copy
of `preprocess_image` is made all the same, and every cell from offset 27648 (the
first one behind the tensor's buffer, which held 0) up to offset 150527 holds the
image sample 1 afterwards. -/
theorem C6_copy_overruns_capacity :
    (List.replicate (IMAGE_WIDTH * IMAGE_HEIGHT * 3) (1 : Int)).length = 150528 ∧
    (⟨96 * 96 * 3, List.replicate 200000 0⟩ : TensorMemory).capacity = 27648 ∧
    (⟨96 * 96 * 3, List.replicate 200000 0⟩ : TensorMemory).cells.getD 27648 0 = 0 ∧
    (preprocess_image (List.replicate (IMAGE_WIDTH * IMAGE_HEIGHT * 3) 1)
      ⟨96 * 96 * 3, List.replicate 200000 0⟩).cells.getD 27648 0 = 1 ∧
    (∀ i : Nat, 27648 ≤ i → i < 150528 →
      (preprocess_image (List.replicate (IMAGE_WIDTH * IMAGE_HEIGHT * 3) 1)
        ⟨96 * 96 * 3, List.replicate 200000 0⟩).cells.getD i 0 = 1) := by
  have hlen : (List.replicate (IMAGE_WIDTH * IMAGE_HEIGHT * 3) (1 : Int)).length = 150528 := by
    rw [List.length_replicate]
    rfl
  have hcell : ∀ i : Nat, i < 150528 →
      (preprocess_image (List.replicate (IMAGE_WIDTH * IMAGE_HEIGHT * 3) 1)
        ⟨96 * 96 * 3, List.replicate 200000 0⟩).cells.getD i 0 = 1 := by
    intro i hi
    rw [copy_writes_every_sample _ _ _ (by rw [hlen]; exact hi)]
    exact getD_replicate_of_lt _ _ _ (by unfold IMAGE_WIDTH IMAGE_HEIGHT; omega)
  exact ⟨hlen, rfl, getD_replicate_of_lt _ _ _ (by omega), hcell 27648 (by omega),
    fun i _ hi => hcell i hi⟩

/-- C7: in an iteration of the detection loop the frame is returned once when the
capture succeeded and not at all when it failed; the returned frame is the captured
one, and the return comes after preprocessing, the model run and the output decoding
of that iteration, with only the delay between it and the next capture; over any
number of iterations there are as many returns as successful captures. -/
theorem C7_frame_returned_once (env : CycleEnv) (envs : List CycleEnv) :
    ((cycle env).countP Event.isReturn = if env.fb.isSome then 1 else 0) ∧
    (∀ pre post f, cycle env = pre ++ Event.fb_return f :: post →
      env.fb = some f ∧ Event.preprocess f ∈ pre ∧ Event.run env.run_ok ∈ pre ∧
      Event.decode (process_output env.output) ∈ pre ∧ post = [.delay 3000]) ∧
    (detection_loop envs).countP Event.isReturn
      = (envs.filter (fun env => env.fb.isSome)).length := by
  refine ⟨cycle_count_returns env, ?_, loop_count_returns envs⟩
  intro pre post f h
  obtain ⟨hfb, hpre, hpost⟩ := cycle_return_position env pre post f h
  subst hpre
  exact ⟨hfb, by simp, by simp, by simp, hpost⟩

theorem C7_frame_returned_once_witness :
    (cycle ⟨some 7, true, ⟨⟨1, 2, 1, 1⟩, [5, 3]⟩⟩).countP Event.isReturn = 1 ∧
    (cycle ⟨none, true, ⟨⟨1, 2, 1, 1⟩, [5, 3]⟩⟩).countP Event.isReturn = 0 ∧
    Event.decode (process_output ⟨⟨1, 2, 1, 1⟩, [5, 3]⟩) ∈
      [Event.fb_get (some 7), Event.preprocess 7, Event.run true,
        Event.decode (process_output ⟨⟨1, 2, 1, 1⟩, [5, 3]⟩)] :=
  ⟨(C7_frame_returned_once ⟨some 7, true, ⟨⟨1, 2, 1, 1⟩, [5, 3]⟩⟩ []).1,
    (C7_frame_returned_once ⟨none, true, ⟨⟨1, 2, 1, 1⟩, [5, 3]⟩⟩ []).1,
    ((C7_frame_returned_once ⟨some 7, true, ⟨⟨1, 2, 1, 1⟩, [5, 3]⟩⟩ []).2.1
      [.fb_get (some 7), .preprocess 7, .run true,
        .decode (process_output ⟨⟨1, 2, 1, 1⟩, [5, 3]⟩)]
      [.delay 3000] 7 rfl).2.2.2.1⟩

/-- C8 as stated fails: in an iteration whose capture succeeds and whose model run
fails, the output decoding is executed all the same, after the failed run. -/
theorem C8_counterexample :
    (⟨some 7, false, ⟨⟨1, 2, 1, 1⟩, [5, 3]⟩⟩ : CycleEnv).run_ok = false ∧
    cycle ⟨some 7, false, ⟨⟨1, 2, 1, 1⟩, [5, 3]⟩⟩ =
      [.fb_get (some 7), .preprocess 7, .run false,
        .decode (process_output ⟨⟨1, 2, 1, 1⟩, [5, 3]⟩), .fb_return 7, .delay 3000] ∧
    Event.decode (process_output ⟨⟨1, 2, 1, 1⟩, [5, 3]⟩) ∈
      cycle ⟨some 7, false, ⟨⟨1, 2, 1, 1⟩, [5, 3]⟩⟩ := by
  decide

/-- C8, amended: in an iteration whose frame capture fails, none of the later stages
(preprocessing, model run, output decoding) is executed and no frame is returned: the
iteration is the failed capture and the one-second delay; and the loop goes on, the
next iterations following it, each with its own capture. -/
theorem C8_capture_failure_skips_stages (env : CycleEnv) (rest : List CycleEnv)
    (hfail : env.fb = none) :
    cycle env = [.fb_get none, .delay 1000] ∧
    (∀ e ∈ cycle env, e.isStage = false ∧ e.isReturn = false) ∧
    detection_loop (env :: rest) = cycle env ++ detection_loop rest ∧
    (detection_loop (env :: rest)).countP Event.isCapture = rest.length + 1 := by
  refine ⟨cycle_none env hfail, ?_, rfl, ?_⟩
  · rw [cycle_none env hfail]
    intro e he
    simp at he
    rcases he with rfl | rfl <;> simp [Event.isStage, Event.isReturn]
  · rw [loop_count_captures, List.length_cons]

theorem C8_capture_failure_skips_stages_witness :
    (⟨none, true, ⟨⟨1, 2, 1, 1⟩, [5, 3]⟩⟩ : CycleEnv).fb = none ∧
    cycle ⟨none, true, ⟨⟨1, 2, 1, 1⟩, [5, 3]⟩⟩ = [.fb_get none, .delay 1000] :=
  ⟨rfl, (C8_capture_failure_skips_stages ⟨none, true, ⟨⟨1, 2, 1, 1⟩, [5, 3]⟩⟩ [] rfl).1⟩

/-- C9: the range `preprocess_image` passes to the quantizer (input 0 to 255, output
-128 to 127) satisfies the range invariant; the quantizer sends `input_min` to the
rounded `output_min`, which is -128, and `input_max` to the rounded `output_max`,
which is 127; every byte sample lands in `[output_min, output_max]`; and the
quantizer is monotone on byte samples. -/
theorem C9_quantize_preprocess_range (s₁ s₂ : Int) (h0 : 0 ≤ s₁) (h12 : s₁ ≤ s₂)
    (h255 : s₂ ≤ 255) :
    preprocess_range.Valid ∧
    preprocess_range.input_min = 0 ∧ preprocess_range.input_max = 255 ∧
    preprocess_range.output_min = -128 ∧ preprocess_range.output_max = 127 ∧
    quantize preprocess_range 0 = roundHalfAway preprocess_range.output_min ∧
    quantize preprocess_range 0 = -128 ∧
    quantize preprocess_range 255 = roundHalfAway preprocess_range.output_max ∧
    quantize preprocess_range 255 = 127 ∧
    preprocess_range.output_min ≤ (quantize preprocess_range s₁ : ℚ) ∧
    (quantize preprocess_range s₁ : ℚ) ≤ preprocess_range.output_max ∧
    quantize preprocess_range s₁ ≤ quantize preprocess_range s₂ := by
  have hq1 := quantize_preprocess_range s₁ h0 (by omega)
  have hq2 := quantize_preprocess_range s₂ (by omega) h255
  have hq0 := quantize_preprocess_range 0 (by omega) (by omega)
  have hq255 := quantize_preprocess_range 255 (by omega) (by omega)
  have hmin : preprocess_range.output_min = ((-128 : Int) : ℚ) := by
    simp [preprocess_range]
  have hmax : preprocess_range.output_max = ((127 : Int) : ℚ) := by
    simp [preprocess_range]
  refine ⟨?_, rfl, rfl, rfl, rfl, ?_, ?_, ?_, ?_, ?_, ?_, ?_⟩
  · constructor <;> simp only [preprocess_range] <;> norm_num
  · rw [hmin, roundHalfAway_intCast, hq0]
    norm_num
  · rw [hq0]
    norm_num
  · rw [hmax, roundHalfAway_intCast, hq255]
    norm_num
  · rw [hq255]
    norm_num
  · rw [hmin, hq1, Int.cast_le]
    omega
  · rw [hmax, hq1, Int.cast_le]
    omega
  · rw [hq1, hq2]
    omega

theorem C9_quantize_preprocess_range_witness :
    (0 : Int) ≤ 100 ∧ (100 : Int) ≤ 200 ∧ (200 : Int) ≤ 255 ∧
    quantize preprocess_range 0 = -128 ∧ quantize preprocess_range 255 = 127 ∧
    quantize preprocess_range 100 ≤ quantize preprocess_range 200 :=
  have h := C9_quantize_preprocess_range 100 200 (by decide) (by decide) (by decide)
  ⟨by decide, by decide, by decide, h.2.2.2.2.2.2.1, h.2.2.2.2.2.2.2.2.1,
    h.2.2.2.2.2.2.2.2.2.2.2⟩

/-- C10: the positive detection is reported exactly when the output has the
classification shape with at least one channel, the raw score of channel 0 is at
least 0, and no other channel has a strictly greater raw score. -/
theorem C10_positive_iff_channel_zero (t : Tensor) (hwf : t.WellFormed) :
    (process_output t).isPositive = true ↔
      t.dims.isClassification = true ∧ 1 ≤ t.dims.c ∧ 0 ≤ t.data.getD 0 0 ∧
      ∀ i : Nat, 1 ≤ i → (i : Int) < t.dims.c → ¬ (t.data.getD 0 0 < t.data.getD i 0) := by
  rw [process_output_positive_iff]
  constructor
  · rintro ⟨hshape, h0, hlt⟩
    rw [findMaxClass_eq_scanUpTo] at h0 hlt
    have hms := scan_score_of_zero _ _ h0
    obtain ⟨hk, hpos, hall⟩ := (scan_selects_zero_iff _ _).mp h0
    have hlen := wellFormed_length t hwf hshape
    have hmem := hwf.2 _ (getD_mem_of_lt t.data 0 (by omega))
    rw [hms] at hlt
    have hs := (quotient_facts (t.data.getD 0 0) hmem.1 hmem.2).2.2.2.2.2.2.mp hlt
    refine ⟨hshape, by omega, hs, ?_⟩
    intro i _ hi
    have := hall i (by omega)
    omega
  · rintro ⟨hshape, hc, hs, hall⟩
    have hlen := wellFormed_length t hwf hshape
    have hmem := hwf.2 _ (getD_mem_of_lt t.data 0 (by omega))
    have h0 : (scanUpTo t.data t.dims.c.toNat).max_class_id = 0 := by
      rw [scan_selects_zero_iff]
      refine ⟨by omega, by omega, ?_⟩
      intro i hi
      rcases Nat.eq_zero_or_pos i with h | h
      · subst h
        exact le_refl _
      · have := hall i h (by omega)
        omega
    refine ⟨hshape, h0, ?_⟩
    rw [findMaxClass_eq_scanUpTo, scan_score_of_zero _ _ h0]
    exact (quotient_facts (t.data.getD 0 0) hmem.1 hmem.2).2.2.2.2.2.2.mpr hs

theorem C10_positive_iff_channel_zero_witness :
    Tensor.WellFormed ⟨⟨1, 2, 1, 1⟩, [0, 0]⟩ ∧
    (process_output ⟨⟨1, 2, 1, 1⟩, [0, 0]⟩).isPositive = true :=
  ⟨⟨by decide, by unfold Int8Cells; decide⟩,
    (C10_positive_iff_channel_zero ⟨⟨1, 2, 1, 1⟩, [0, 0]⟩
      ⟨by decide, by unfold Int8Cells; decide⟩).mpr
      ⟨by decide, by decide, by decide, by
        intro i h1 h2
        have h3 : (i : Int) < 2 := h2
        have h4 : i = 1 := by omega
        subst h4
        decide⟩⟩

end MotherboardDetection
